import Mathlib

set_option autoImplicit false

/-!
Verification development for the `veles` unit-graph scheduling core
(`src/units.py`).  Python dictionaries are modelled as association lists
(key order = insertion order, unique keys in every reachable state);
Python objects are addressed by natural-number identities; the heap of
units is a finite association list from identities to unit states.
Locks are modelled by their observable state (`run_lock_held`); the gate
lock only serialises critical sections, which a sequential embedding
already provides.  The opaque method bodies `initialize()` / `run()`
(no-ops in class `Unit`, overridden in subclasses) are instrumented as
call counters, with explicit `raises` parameters where a claim concerns
the exception path.
-/

namespace Veles

/-- `d[k]`-style lookup in an association-list dictionary (first match,
which is the only match in every state reachable by the modelled code). -/
def dictLookup {α β : Type} [DecidableEq α] : List (α × β) → α → Option β
  | [], _ => none
  | p :: rest, k => if p.1 = k then some p.2 else dictLookup rest k

/-- `k in d` membership test of a Python dict. -/
def dictHasKey {α β : Type} [DecidableEq α] (l : List (α × β)) (k : α) : Bool :=
  (dictLookup l k).isSome

/-- `d[k] = v`: replaces the value at an existing key in place (Python
dicts keep the original insertion position) or appends a new entry. -/
def dictSet {α β : Type} [DecidableEq α] : List (α × β) → α → β → List (α × β)
  | [], k, v => [(k, v)]
  | p :: rest, k, v => if p.1 = k then (k, v) :: rest else p :: dictSet rest k v

/-- `del d[k]`: removes the entry of key `k` (on nodup-key lists, which
are the only reachable ones, removing every match equals removing the
single match). -/
def dictDel {α β : Type} [DecidableEq α] (l : List (α × β)) (k : α) : List (α × β) :=
  l.filter (fun p => decide (p.1 ≠ k))

/-- `d.keys()` in iteration order. -/
def dictKeys {α β : Type} (l : List (α × β)) : List α :=
  l.map Prod.fst

/-- `d.values()` in iteration order. -/
def dictValues {α β : Type} (l : List (α × β)) : List β :=
  l.map Prod.snd

/-- Content of one of the four single-slot routing cells
(`gate_block[0]`, `gate_skip[0]`, `gate_block_not[0]`, `gate_skip_not[0]`):
either a plain value (Python truthiness abstracted to `Bool`; the initial
content `0` is falsy) or a zero-argument callable. -/
inductive GateValue where
  | plain (b : Bool)
  | callable (f : Unit → Bool)

/-- `Unit.callvle`: `var() if callable(var) else var`. -/
def callvle : GateValue → Bool
  | .plain b => b
  | .callable f => f ()

/-- The state of one `Unit` object: the fields of `units.py` that the
claims are about, plus instrumentation counters for the opaque
`initialize()` / `run()` bodies (no-ops in the base class). -/
structure UnitState where
  links_from : List (Nat × Bool)
  links_to : List (Nat × Bool)
  gate_block : GateValue
  gate_skip : GateValue
  gate_block_not : GateValue
  gate_skip_not : GateValue
  is_initialized : Bool
  run_lock_held : Bool
  init_calls : Nat
  run_calls : Nat

/-- A freshly constructed unit: `__init__` leaves both link maps empty and
all four gate cells `[0]` (falsy); `init_unpickled` (invoked during
construction) leaves `is_initialized = False` and a fresh, unheld run lock. -/
def defaultUnit : UnitState :=
  { links_from := []
    links_to := []
    gate_block := .plain false
    gate_skip := .plain false
    gate_block_not := .plain false
    gate_skip_not := .plain false
    is_initialized := false
    run_lock_held := false
    init_calls := 0
    run_calls := 0 }

/-- The heap of unit objects, keyed by object identity.  Finite, as any
Python heap is. -/
def Graph : Type := List (Nat × UnitState)

/-- Dereference an object identity (absent identities behave as fresh
units; the modelled code never fabricates identities, so in faithful runs
every referenced identity is present or fresh-equivalent). -/
def getUnit (g : Graph) (n : Nat) : UnitState :=
  (dictLookup g n).getD defaultUnit

/-- Write back the state of one object. -/
def setUnit (g : Graph) (n : Nat) (u : UnitState) : Graph :=
  dictSet g n u

/-- `Unit.link_from(self, src)`:
`self.links_from[src] = False; src.links_to[self] = False`. -/
def link_from (g : Graph) (self src : Nat) : Graph :=
  let g1 := setUnit g self
    { getUnit g self with links_from := dictSet (getUnit g self).links_from src false }
  setUnit g1 src
    { getUnit g1 src with links_to := dictSet (getUnit g1 src).links_to self false }

/-- `Unit.open_gate(self, src)`: under `gate_lock_`, an empty
`links_from` is always open; otherwise mark `src`'s arrival flag when it
is a known predecessor, fail if any flag is still false, and otherwise
reset every flag and succeed.  Returns the result together with the
mutated heap. -/
def open_gate (g : Graph) (self src : Nat) : Bool × Graph :=
  let u := getUnit g self
  if u.links_from.isEmpty then (true, g)
  else
    let lf1 := if dictHasKey u.links_from src then dictSet u.links_from src true
               else u.links_from
    if (dictValues lf1).all (fun b => b) then
      (true, setUnit g self { u with links_from := lf1.map (fun p => (p.1, false)) })
    else
      (false, setUnit g self { u with links_from := lf1 })

/-- `Unit.unlink_from(self, src)`: removes the edge in both directions,
each side guarded by a membership test. -/
def unlink_from (g : Graph) (self src : Nat) : Graph :=
  let g1 := if dictHasKey (getUnit g src).links_to self then
      setUnit g src
        { getUnit g src with links_to := dictDel (getUnit g src).links_to self }
    else g
  if dictHasKey (getUnit g1 self).links_from src then
    setUnit g1 self
      { getUnit g1 self with links_from := dictDel (getUnit g1 self).links_from src }
  else g1

/-- `Unit.unlink_from_all(self)`: drop `self` from every predecessor's
`links_to` and (then) from every successor's `links_from`, and clear both
of `self`'s own maps. -/
def unlink_from_all (g : Graph) (self : Nat) : Graph :=
  let g1 := (dictKeys (getUnit g self).links_from).foldl
    (fun acc src => setUnit acc src
      { getUnit acc src with links_to := dictDel (getUnit acc src).links_to self }) g
  let g2 := (dictKeys (getUnit g1 self).links_to).foldl
    (fun acc dst => setUnit acc dst
      { getUnit acc dst with links_from := dictDel (getUnit acc dst).links_from self }) g1
  setUnit g2 self { getUnit g2 self with links_from := [], links_to := [] }

/-- The skip decision of `check_gate_and_run`, exactly as parenthesised in
the source: `(callvle(skip) and not callvle(skip_not)) or
(not callvle(skip) and callvle(skip_not))`. -/
def effective_skip (u : UnitState) : Bool :=
  (callvle u.gate_skip && !callvle u.gate_skip_not) ||
    (!callvle u.gate_skip && callvle u.gate_skip_not)

/-- The block decision of `run_dependent`, evaluated on the successor's
own cells. -/
def effective_block (u : UnitState) : Bool :=
  (callvle u.gate_block && !callvle u.gate_block_not) ||
    (!callvle u.gate_block && callvle u.gate_block_not)

/-- `Unit.run_dependent(self)`: the successors for which
`check_gate_and_run(dst, self)` is submitted to the worker pool — every
`links_to` key whose effective block flag is false, in iteration order.
(The submitted tasks are asynchronous; a sequential embedding records the
submission list.) -/
def run_dependent (g : Graph) (self : Nat) : List Nat :=
  (dictKeys (getUnit g self).links_to).filter
    (fun dst => !effective_block (getUnit g dst))

/-- Release `self.run_lock_` (the `finally` block). -/
def releaseLock (g : Graph) (self : Nat) : Graph :=
  setUnit g self { getUnit g self with run_lock_held := false }

/-- Tail of `check_gate_and_run` once initialization has been settled:
invoke `run()` (bump the counter; propagate when it raises, releasing the
lock), then release the lock and invoke `run_dependent`.  Result:
(heap, raised?, submitted successor list if `run_dependent` ran). -/
def runBody (run_raises : Bool) (g : Graph) (self : Nat) :
    Graph × Bool × Option (List Nat) :=
  let g5 := setUnit g self { getUnit g self with run_calls := (getUnit g self).run_calls + 1 }
  if run_raises then (releaseLock g5 self, true, none)
  else (releaseLock g5 self, false, some (run_dependent (releaseLock g5 self) self))

/-- `Unit.check_gate_and_run(self, src)`.  `init_raises` / `run_raises`
model whether the overridable `initialize()` / `run()` bodies raise. -/
def check_gate_and_run (init_raises run_raises : Bool) (g : Graph) (self src : Nat) :
    Graph × Bool × Option (List Nat) :=
  let og := open_gate g self src
  if !og.1 then (og.2, false, none)
  else if effective_skip (getUnit og.2 self) then
    (og.2, false, some (run_dependent og.2 self))
  else if (getUnit og.2 self).run_lock_held then (og.2, false, none)
  else
    let g2 := setUnit og.2 self { getUnit og.2 self with run_lock_held := true }
    if !(getUnit g2 self).is_initialized then
      let g3 := setUnit g2 self
        { getUnit g2 self with init_calls := (getUnit g2 self).init_calls + 1 }
      if init_raises then (releaseLock g3 self, true, none)
      else
        let g4 := setUnit g3 self { getUnit g3 self with is_initialized := true }
        runBody run_raises g4 self
    else runBody run_raises g2 self

/-- `Repeater.open_gate(self, src)`: `return True`, touching nothing. -/
def Repeater.open_gate (g : Graph) (_self _src : Nat) : Bool × Graph :=
  (true, g)

/-- Number of heap entries whose unit is not yet initialized (termination
measure for the recursive initialization traversal). -/
def uninitCount : Graph → Nat
  | [] => 0
  | p :: rest => (if p.2.is_initialized then 0 else 1) + uninitCount rest

/-- The bidirectionality invariant of the spec:
`B ∈ A.links_to ⇔ A ∈ B.links_from`. -/
def Bidir (g : Graph) : Prop :=
  ∀ a b, dictHasKey (getUnit g a).links_to b = true ↔
    dictHasKey (getUnit g b).links_from a = true

/-- One graph-linkage operation. -/
inductive LinkOp where
  | link (self src : Nat)
  | unlink (self src : Nat)
  | unlinkAll (self : Nat)

/-- Apply one linkage operation. -/
def applyOp (g : Graph) : LinkOp → Graph
  | .link self src => link_from g self src
  | .unlink self src => unlink_from g self src
  | .unlinkAll self => unlink_from_all g self

/-- Apply a sequence of linkage operations. -/
def applyOps (g : Graph) (ops : List LinkOp) : Graph :=
  ops.foldl applyOp g

/-- The heap before any unit has been touched: every identity dereferences
to a freshly constructed unit. -/
def freshGraph : Graph := []

/-- Drive one unit's gate with a sequence of notifications (the spec's
round-trip test harness): returns the list of `open_gate` results in
order, plus the final heap. -/
def notifyAll (n : Nat) (srcs : List Nat) (g : Graph) : List Bool × Graph :=
  match srcs with
  | [] => ([], g)
  | s :: rest =>
    let og := open_gate g n s
    let r := notifyAll n rest og.2
    (og.1 :: r.1, r.2)

/-- The `links_from` map of a mid-round gate: same keys in the same order
as `L`, the arrival flag of `k` true exactly when `k` has been notified
(`k ∈ P`). -/
def flagged (L : List (Nat × Bool)) (P : List Nat) : List (Nat × Bool) :=
  L.map (fun p => (p.1, decide (p.1 ∈ P)))

/-- A Python attribute value, as far as pickling is concerned: `None`,
a boolean, a lock object (tagged by identity, to state freshness),
plain data, or a callable. -/
inductive PyVal where
  | noneV
  | boolV (b : Bool)
  | lockV (id : Nat)
  | natV (n : Nat)
  | funcV (f : Nat → Nat)

/-- `callable(v)`. -/
def isCallable : PyVal → Bool
  | .funcV _ => true
  | _ => false

/-- `k[len(k) - 1] == "_"` (attribute names are nonempty). -/
def endsUnderscore (k : String) : Bool :=
  k.back == '_'

/-- `Pickleable.__getstate__`: every `__dict__` entry is kept; an entry
whose key ends in `_` or whose value is callable has its value replaced
by `None`, all other values persist as-is. -/
def getstate (d : List (String × PyVal)) : List (String × PyVal) :=
  d.map (fun kv =>
    if !endsUnderscore kv.1 && !isCallable kv.2 then kv else (kv.1, .noneV))

/-- `Unit.init_unpickled` as it acts on the object's `__dict__`: fresh
`gate_lock_` and `run_lock_` lock objects (identities supplied by the
runtime) and `is_initialized = False`.  The external `logger.Logger`
base (not part of this repository's shown source) is modelled as
contributing nothing to the attributes the claim is about; the
class-level `Unit.timers` registry is not an instance attribute. -/
def init_unpickled (fresh1 fresh2 : Nat) (d : List (String × PyVal)) :
    List (String × PyVal) :=
  dictSet (dictSet (dictSet d "gate_lock_" (.lockV fresh1))
    "run_lock_" (.lockV fresh2)) "is_initialized" (.boolV false)

/-- `Pickleable.__setstate__` on a freshly allocated object (empty
`__dict__`): `self.__dict__.update(state)` — which on an empty dict is
`state` itself — followed by `init_unpickled`. -/
def setstate (state : List (String × PyVal)) (fresh1 fresh2 : Nat) :
    List (String × PyVal) :=
  init_unpickled fresh1 fresh2 state

/-- Example heap: unit 2 linked from units 0 and 1 (two predecessors,
arrival flags false). -/
def exGraph : Graph := link_from (link_from freshGraph 2 0) 2 1

/-- Example heap: source unit 3 (no predecessors) whose run lock is
currently held by an in-flight run. -/
def exGraphLocked : Graph := [(3, { defaultUnit with run_lock_held := true })]

/-- Example heap: source unit 4 with a statically true skip flag and a
successor 5. -/
def exGraphSkip : Graph :=
  [(4, { defaultUnit with gate_skip := .plain true, links_to := [(5, false)] }),
   (5, defaultUnit)]

/-- Example heap: unit 8 already initialized. -/
def exGraphInit : Graph := [(8, { defaultUnit with is_initialized := true })]

/-- Example heap: source unit 6 with one successor 7; both uninitialized
and unlocked. -/
def exGraphChain : Graph :=
  [(6, { defaultUnit with links_to := [(7, false)] }),
   (7, { defaultUnit with links_from := [(6, false)] })]

/-- Example `__dict__` of a unit about to be pickled: ordinary data,
transient-by-convention lock attributes, and the callable `run` slot
(the timing wrapper installed by `__init__`). -/
def exDict : List (String × PyVal) :=
  [("links_from", .natV 0), ("gate_lock_", .lockV 17), ("run_lock_", .lockV 18),
   ("is_initialized", .boolV true), ("run", .funcV (fun n => n)),
   ("view_group", .natV 5)]

/-! ### Association-list dictionary lemmas -/

theorem dictLookup_dictSet_self {α β : Type} [DecidableEq α]
    (l : List (α × β)) (k : α) (v : β) :
    dictLookup (dictSet l k v) k = some v := by
  induction l with
  | nil => simp [dictSet, dictLookup]
  | cons p rest ih =>
    by_cases h : p.1 = k
    · simp [dictSet, h, dictLookup]
    · simp [dictSet, h, dictLookup, ih]

theorem dictLookup_dictSet_ne {α β : Type} [DecidableEq α]
    (l : List (α × β)) (k j : α) (v : β) (hj : j ≠ k) :
    dictLookup (dictSet l k v) j = dictLookup l j := by
  induction l with
  | nil => simp [dictSet, dictLookup, Ne.symm hj]
  | cons p rest ih =>
    by_cases h : p.1 = k
    · simp [dictSet, h, dictLookup, Ne.symm hj]
    · simp only [dictSet, if_neg h, dictLookup, ih]

theorem mem_dictKeys_iff {α β : Type} [DecidableEq α]
    (l : List (α × β)) (k : α) :
    k ∈ dictKeys l ↔ (dictLookup l k).isSome = true := by
  induction l with
  | nil => simp [dictKeys, dictLookup]
  | cons p rest ih =>
    by_cases h : p.1 = k
    · simp [dictKeys, dictLookup, h]
    · simp only [dictKeys, List.map_cons, List.mem_cons, dictLookup, if_neg h]
      rw [dictKeys] at ih
      rw [ih]
      constructor
      · rintro (hh | hh)
        · exact absurd hh.symm h
        · exact hh
      · exact Or.inr

theorem dictHasKey_iff_mem_keys {α β : Type} [DecidableEq α]
    (l : List (α × β)) (k : α) :
    dictHasKey l k = true ↔ k ∈ dictKeys l := by
  rw [dictHasKey, mem_dictKeys_iff]

theorem dictHasKey_dictSet {α β : Type} [DecidableEq α]
    (l : List (α × β)) (k j : α) (v : β) :
    dictHasKey (dictSet l k v) j = true ↔ (j = k ∨ dictHasKey l j = true) := by
  by_cases h : j = k
  · subst h
    simp [dictHasKey, dictLookup_dictSet_self]
  · simp [dictHasKey, dictLookup_dictSet_ne l k j v h, h]

theorem dictKeys_dictSet_of_hasKey {α β : Type} [DecidableEq α]
    (l : List (α × β)) (k : α) (v : β) (h : dictHasKey l k = true) :
    dictKeys (dictSet l k v) = dictKeys l := by
  induction l with
  | nil => simp [dictHasKey, dictLookup] at h
  | cons p rest ih =>
    by_cases hp : p.1 = k
    · simp [dictSet, hp, dictKeys]
    · have h' : dictHasKey rest k = true := by
        simpa [dictHasKey, dictLookup, hp] using h
      have hk := ih h'
      simp only [dictKeys] at hk
      simp [dictSet, hp, dictKeys, hk]

theorem dictLookup_dictDel {α β : Type} [DecidableEq α]
    (l : List (α × β)) (k j : α) :
    dictLookup (dictDel l k) j = if j = k then none else dictLookup l j := by
  induction l with
  | nil => simp [dictDel, dictLookup]
  | cons p rest ih =>
    by_cases hp : p.1 = k
    · have : dictDel (p :: rest) k = dictDel rest k := by
        simp [dictDel, List.filter, hp]
      rw [this, ih]
      by_cases hj : j = k
      · simp [hj]
      · simp only [if_neg hj, dictLookup]
        have : ¬p.1 = j := fun hh => hj (by rw [← hh, hp])
        simp [this]
    · have : dictDel (p :: rest) k = p :: dictDel rest k := by
        simp [dictDel, List.filter, hp]
      rw [this]
      by_cases hj : j = k
      · subst hj
        simp only [dictLookup, if_neg hp, ih, if_pos rfl]
      · simp only [dictLookup, ih, if_neg hj]

theorem dictHasKey_dictDel {α β : Type} [DecidableEq α]
    (l : List (α × β)) (k j : α) :
    dictHasKey (dictDel l k) j = true ↔ (j ≠ k ∧ dictHasKey l j = true) := by
  rw [dictHasKey, dictHasKey, dictLookup_dictDel]
  by_cases hj : j = k <;> simp [hj]

theorem dictDel_dictDel {α β : Type} [DecidableEq α]
    (l : List (α × β)) (k : α) :
    dictDel (dictDel l k) k = dictDel l k := by
  induction l with
  | nil => rfl
  | cons p rest ih =>
    by_cases h : p.1 = k <;> simp [dictDel, List.filter_cons, h] at ih ⊢

theorem dictSet_dictSet {α β : Type} [DecidableEq α]
    (l : List (α × β)) (k : α) (u v : β) :
    dictSet (dictSet l k u) k v = dictSet l k v := by
  induction l with
  | nil => simp [dictSet]
  | cons p rest ih =>
    by_cases hp : p.1 = k
    · simp [dictSet, hp]
    · simp [dictSet, hp, ih]

theorem dictSet_lookup_eq_self {α β : Type} [DecidableEq α]
    (l : List (α × β)) (k : α) (v : β) (h : dictLookup l k = some v) :
    dictSet l k v = l := by
  induction l with
  | nil => simp [dictLookup] at h
  | cons p rest ih =>
    by_cases hp : p.1 = k
    · rw [dictLookup, if_pos hp] at h
      have hv : p.2 = v := Option.some.inj h
      have hpk : p = (k, v) := by
        cases p with
        | mk a b => simp only [Prod.mk.injEq]; exact ⟨hp, hv⟩
      simp [dictSet, hp, hpk]
    · rw [dictLookup, if_neg hp] at h
      simp [dictSet, hp, ih h]

theorem dictValues_all_iff {α : Type}
    (l : List (α × Bool)) :
    ((dictValues l).all (fun b => b) = true) ↔ ∀ p ∈ l, p.2 = true := by
  simp [dictValues, List.all_eq_true]

/-! ### Heap access lemmas -/

theorem getUnit_setUnit_self (g : Graph) (n : Nat) (u : UnitState) :
    getUnit (setUnit g n u) n = u := by
  simp [getUnit, setUnit, dictLookup_dictSet_self]

theorem getUnit_setUnit_ne (g : Graph) (n m : Nat) (u : UnitState) (h : m ≠ n) :
    getUnit (setUnit g n u) m = getUnit g m := by
  simp [getUnit, setUnit, dictLookup_dictSet_ne g n m u h]

theorem setUnit_setUnit (g : Graph) (n : Nat) (u v : UnitState) :
    setUnit (setUnit g n u) n v = setUnit g n v := by
  simp [setUnit, dictSet_dictSet]

/-! ### `open_gate` frame lemma: only arrival flags change -/

theorem open_gate_snd_cases (g : Graph) (n s : Nat) :
    (open_gate g n s).2 = g ∨
      ∃ lf, (open_gate g n s).2 = setUnit g n { getUnit g n with links_from := lf } := by
  simp only [open_gate]
  split
  · exact Or.inl rfl
  · split <;> split <;> exact Or.inr ⟨_, rfl⟩

theorem getUnit_open_gate_eq (g : Graph) (n s m : Nat) :
    getUnit (open_gate g n s).2 m =
      { getUnit g m with links_from := (getUnit (open_gate g n s).2 m).links_from } := by
  rcases open_gate_snd_cases g n s with h | ⟨lf, h⟩
  · rw [h]
  · rw [h]
    by_cases hm : m = n
    · subst hm
      simp [getUnit_setUnit_self]
    · simp [getUnit_setUnit_ne g n m _ hm]

/-- C5: for each flag/invert pair the effective routing decision is
`raw XOR invert`; the `(true, true)` configuration decides exactly as
`(false, false)`; a callable cell is called through at decision time and
a plain cell is used directly. -/
theorem routing_flags_xor_semantics :
    (∀ u : UnitState,
      effective_skip u = Bool.xor (callvle u.gate_skip) (callvle u.gate_skip_not)) ∧
    (∀ u : UnitState,
      effective_block u = Bool.xor (callvle u.gate_block) (callvle u.gate_block_not)) ∧
    (∀ b : Bool, callvle (.plain b) = b) ∧
    (∀ f : Unit → Bool, callvle (.callable f) = f ()) ∧
    (∀ u : UnitState,
      effective_skip { u with gate_skip := .plain true, gate_skip_not := .plain true } =
        effective_skip { u with gate_skip := .plain false, gate_skip_not := .plain false }) ∧
    (∀ u : UnitState,
      effective_block { u with gate_block := .plain true, gate_block_not := .plain true } =
        effective_block { u with gate_block := .plain false, gate_block_not := .plain false }) := by
  refine ⟨fun u => ?_, fun u => ?_, fun b => rfl, fun f => rfl, fun u => rfl, fun u => rfl⟩
  · cases h1 : callvle u.gate_skip <;> cases h2 : callvle u.gate_skip_not <;>
      simp [effective_skip, h1, h2]
  · cases h1 : callvle u.gate_block <;> cases h2 : callvle u.gate_block_not <;>
      simp [effective_block, h1, h2]

/-- C4: `run_dependent` submits a gate-check task for exactly those
successors whose effective block flag (evaluated on the successor's own
cells) is false; a blocked successor is never submitted at all. -/
theorem run_dependent_blocks_suppressed_successors :
    ∀ (g : Graph) (self dst : Nat),
      dst ∈ run_dependent g self ↔
        (dst ∈ dictKeys (getUnit g self).links_to ∧
          effective_block (getUnit g dst) = false) := by
  intro g self dst
  simp [run_dependent, List.mem_filter]

/-- C10: a `Repeater`'s gate is unconditionally open: `open_gate` returns
true and leaves the heap — in particular every `links_from` arrival
flag — untouched, even where `Unit.open_gate` would report the gate
closed. -/
theorem repeater_gate_always_open :
    ∀ (g : Graph) (self src : Nat),
      Repeater.open_gate g self src = (true, g) ∧
      (∀ n, (getUnit (Repeater.open_gate g self src).2 n).links_from =
        (getUnit g n).links_from) ∧
      ((open_gate g self src).1 = false → (Repeater.open_gate g self src).1 = true) :=
  fun g self src => ⟨rfl, fun n => rfl, fun _ => rfl⟩

/-- Witness for C10 on a concrete heap where the inherited AND-join gate
is closed (only one of unit 2's two predecessors has arrived). -/
theorem repeater_gate_always_open_witness :
    (open_gate exGraph 2 0).1 = false ∧ (Repeater.open_gate exGraph 2 0).1 = true :=
  ⟨by decide, (repeater_gate_always_open exGraph 2 0).2.2 (by decide)⟩

/-- C2: when the gate opens and the skip flag is off but `run_lock_` is
already held, `check_gate_and_run` returns at once: no initialization, no
`run()`, no successor notification; the only heap change is the gate's
own bookkeeping. -/
theorem check_gate_and_run_drops_overlapping_trigger
    (ir rr : Bool) (g : Graph) (self src : Nat)
    (hopen : (open_gate g self src).1 = true)
    (hskip : effective_skip (getUnit (open_gate g self src).2 self) = false)
    (hlock : (getUnit (open_gate g self src).2 self).run_lock_held = true) :
    check_gate_and_run ir rr g self src = ((open_gate g self src).2, false, none) ∧
    (∀ n, (getUnit (open_gate g self src).2 n).init_calls = (getUnit g n).init_calls) ∧
    (∀ n, (getUnit (open_gate g self src).2 n).run_calls = (getUnit g n).run_calls) ∧
    (∀ n, (getUnit (open_gate g self src).2 n).is_initialized =
      (getUnit g n).is_initialized) := by
  refine ⟨?_, fun n => ?_, fun n => ?_, fun n => ?_⟩
  · simp [check_gate_and_run, hopen, hskip, hlock]
  · rw [getUnit_open_gate_eq g self src n]
  · rw [getUnit_open_gate_eq g self src n]
  · rw [getUnit_open_gate_eq g self src n]

/-- Witness for C2: a source node with its run lock held drops the
trigger. -/
theorem check_gate_and_run_drops_overlapping_trigger_witness :
    check_gate_and_run false false exGraphLocked 3 0 = (exGraphLocked, false, none) :=
  (check_gate_and_run_drops_overlapping_trigger false false exGraphLocked 3 0
    (by decide) (by decide) (by decide)).1

/-- C3: when the gate opens and the effective skip flag is true, the
`run()` body is not executed (no counter moves, no initialization) but
`run_dependent` still runs, scheduling the non-blocked successors. -/
theorem check_gate_and_run_skip_still_notifies
    (ir rr : Bool) (g : Graph) (self src : Nat)
    (hopen : (open_gate g self src).1 = true)
    (hskip : effective_skip (getUnit (open_gate g self src).2 self) = true) :
    check_gate_and_run ir rr g self src =
      ((open_gate g self src).2, false,
        some (run_dependent (open_gate g self src).2 self)) ∧
    (∀ n, (getUnit (open_gate g self src).2 n).run_calls = (getUnit g n).run_calls) ∧
    (∀ n, (getUnit (open_gate g self src).2 n).init_calls = (getUnit g n).init_calls) ∧
    (∀ n, (getUnit (open_gate g self src).2 n).is_initialized =
      (getUnit g n).is_initialized) := by
  refine ⟨?_, fun n => ?_, fun n => ?_, fun n => ?_⟩
  · simp [check_gate_and_run, hopen, hskip]
  · rw [getUnit_open_gate_eq g self src n]
  · rw [getUnit_open_gate_eq g self src n]
  · rw [getUnit_open_gate_eq g self src n]

/-- Witness for C3: a skipped node does not run but still schedules its
successor. -/
theorem check_gate_and_run_skip_still_notifies_witness :
    check_gate_and_run false false exGraphSkip 4 0 = (exGraphSkip, false, some [5]) :=
  (check_gate_and_run_skip_still_notifies false false exGraphSkip 4 0
    (by decide) (by decide)).1

/-- C6: on the execution path (gate open, skip off, lock free): if
`initialize()` raises, `is_initialized` stays false (the next trigger
will retry initialization), `run()` is not executed, the exception
propagates and `run_dependent` is not invoked; if `run()` raises, the
exception propagates and `run_dependent` is not invoked; on every exit
path the run lock ends up released. -/
theorem check_gate_and_run_exception_paths
    (ir rr : Bool) (g : Graph) (self src : Nat)
    (hopen : (open_gate g self src).1 = true)
    (hskip : effective_skip (getUnit (open_gate g self src).2 self) = false)
    (hlock : (getUnit (open_gate g self src).2 self).run_lock_held = false) :
    (getUnit (check_gate_and_run ir rr g self src).1 self).run_lock_held = false ∧
    ((getUnit (open_gate g self src).2 self).is_initialized = false → ir = true →
      (check_gate_and_run ir rr g self src).2.1 = true ∧
      (check_gate_and_run ir rr g self src).2.2 = none ∧
      (getUnit (check_gate_and_run ir rr g self src).1 self).is_initialized = false ∧
      (getUnit (check_gate_and_run ir rr g self src).1 self).run_calls =
        (getUnit g self).run_calls) ∧
    (((getUnit (open_gate g self src).2 self).is_initialized = true ∨ ir = false) →
      rr = true →
      (check_gate_and_run ir rr g self src).2.1 = true ∧
      (check_gate_and_run ir rr g self src).2.2 = none ∧
      (getUnit (check_gate_and_run ir rr g self src).1 self).run_lock_held = false) := by
  refine ⟨?_, fun h1 h2 => ?_, fun h1 h2 => ?_⟩
  · cases hinit : (getUnit (open_gate g self src).2 self).is_initialized <;>
      cases ir <;> cases rr <;>
      simp [check_gate_and_run, hopen, hskip, hlock, runBody, releaseLock,
        getUnit_setUnit_self, setUnit_setUnit, hinit]
  · subst h2
    refine ⟨?_, ?_, ?_, ?_⟩ <;>
      simp [check_gate_and_run, hopen, hskip, hlock, runBody, releaseLock,
        getUnit_setUnit_self, setUnit_setUnit, h1]
    rw [getUnit_open_gate_eq g self src self]
  · subst h2
    rcases h1 with h1 | h1
    · refine ⟨?_, ?_, ?_⟩ <;>
        simp [check_gate_and_run, hopen, hskip, hlock, runBody, releaseLock,
          getUnit_setUnit_self, setUnit_setUnit, h1]
    · subst h1
      cases hinit : (getUnit (open_gate g self src).2 self).is_initialized <;>
        refine ⟨?_, ?_, ?_⟩ <;>
        simp [check_gate_and_run, hopen, hskip, hlock, runBody, releaseLock,
          getUnit_setUnit_self, setUnit_setUnit, hinit]

/-- Witness for C6 on a source node whose `initialize()` and `run()`
raise respectively. -/
theorem check_gate_and_run_exception_paths_witness :
    (getUnit (check_gate_and_run true false exGraphChain 6 0).1 6).is_initialized
        = false ∧
    (check_gate_and_run true false exGraphChain 6 0).2.1 = true ∧
    (check_gate_and_run false true exGraphChain 6 0).2.2 = none ∧
    (getUnit (check_gate_and_run false true exGraphChain 6 0).1 6).run_lock_held
        = false := by
  have h1 := check_gate_and_run_exception_paths true false exGraphChain 6 0
    (by decide) (by decide) (by decide)
  have h2 := check_gate_and_run_exception_paths false true exGraphChain 6 0
    (by decide) (by decide) (by decide)
  exact ⟨(h1.2.1 (by decide) rfl).2.2.1, (h1.2.1 (by decide) rfl).1,
    (h2.2.2 (Or.inr rfl) rfl).2.1, (h2.2.2 (Or.inr rfl) rfl).2.2⟩

/-- `__getstate__` seen through lookup: the stored value of `k` is the
original value, masked to `None` when the name ends in `_` or the value
is callable. -/
theorem dictLookup_getstate (d : List (String × PyVal)) (k : String) :
    dictLookup (getstate d) k =
      (dictLookup d k).map
        (fun v => if endsUnderscore k || isCallable v then PyVal.noneV else v) := by
  induction d with
  | nil => rfl
  | cons p rest ih =>
    have hgs : getstate (p :: rest) =
        (if !endsUnderscore p.1 && !isCallable p.2 then p
         else (p.1, PyVal.noneV)) :: getstate rest := rfl
    rw [hgs]
    by_cases hp : p.1 = k
    · rw [← hp]
      cases he : endsUnderscore p.1 <;> cases hcall : isCallable p.2 <;>
        simp [dictLookup, he, hcall]
    · cases he : endsUnderscore p.1 <;> cases hcall : isCallable p.2 <;>
        simp [dictLookup, hp, he, hcall, ih]

/-- C8: the pickled state keeps every attribute key but replaces the
value of every `_`-suffixed attribute and every callable-valued
attribute by `None`, persisting all other values as-is; after restore,
`init_unpickled` has installed fresh `gate_lock_` / `run_lock_` lock
objects (in particular not the pre-serialization ones) and
`is_initialized = false`, while non-transient attributes come back
unchanged. -/
theorem pickle_transient_discipline :
    (∀ (d : List (String × PyVal)) (k : String),
      dictLookup (getstate d) k =
        (dictLookup d k).map
          (fun v => if endsUnderscore k || isCallable v then PyVal.noneV else v)) ∧
    (∀ (d : List (String × PyVal)) (f1 f2 : Nat),
      dictLookup (setstate (getstate d) f1 f2) "is_initialized" =
          some (.boolV false) ∧
      dictLookup (setstate (getstate d) f1 f2) "gate_lock_" = some (.lockV f1) ∧
      dictLookup (setstate (getstate d) f1 f2) "run_lock_" = some (.lockV f2)) ∧
    (∀ (d : List (String × PyVal)) (f1 f2 oldId : Nat), f1 ≠ oldId →
      dictLookup (setstate (getstate d) f1 f2) "gate_lock_" ≠ some (.lockV oldId)) ∧
    (∀ (d : List (String × PyVal)) (f1 f2 : Nat) (k : String) (v : PyVal),
      k ≠ "gate_lock_" → k ≠ "run_lock_" → k ≠ "is_initialized" →
      endsUnderscore k = false → isCallable v = false →
      dictLookup d k = some v →
      dictLookup (setstate (getstate d) f1 f2) k = some v) := by
  have hlocks : ∀ (d : List (String × PyVal)) (f1 f2 : Nat),
      dictLookup (setstate (getstate d) f1 f2) "is_initialized" =
          some (.boolV false) ∧
      dictLookup (setstate (getstate d) f1 f2) "gate_lock_" = some (.lockV f1) ∧
      dictLookup (setstate (getstate d) f1 f2) "run_lock_" = some (.lockV f2) := by
    intro d f1 f2
    refine ⟨dictLookup_dictSet_self _ _ _, ?_, ?_⟩
    · rw [setstate, init_unpickled, dictLookup_dictSet_ne _ _ _ _ (by decide),
        dictLookup_dictSet_ne _ _ _ _ (by decide), dictLookup_dictSet_self]
    · rw [setstate, init_unpickled, dictLookup_dictSet_ne _ _ _ _ (by decide),
        dictLookup_dictSet_self]
  refine ⟨dictLookup_getstate, hlocks, ?_, ?_⟩
  · intro d f1 f2 oldId hne h
    rw [(hlocks d f1 f2).2.1] at h
    exact hne (PyVal.lockV.inj (Option.some.inj h))
  · intro d f1 f2 k v h1 h2 h3 hu hc hv
    rw [setstate, init_unpickled, dictLookup_dictSet_ne _ _ _ _ h3,
      dictLookup_dictSet_ne _ _ _ _ h2, dictLookup_dictSet_ne _ _ _ _ h1,
      dictLookup_getstate, hv]
    simp [hu, hc]

/-- Witness for C8: the restored lock differs from the pre-serialization
lock object, and an ordinary attribute survives the round trip. -/
theorem pickle_transient_discipline_witness :
    dictLookup (setstate (getstate exDict) 1 2) "gate_lock_" ≠
        some (.lockV 17) ∧
    dictLookup (setstate (getstate exDict) 1 2) "view_group" =
        some (.natV 5) :=
  ⟨pickle_transient_discipline.2.2.1 exDict 1 2 17 (by decide),
   pickle_transient_discipline.2.2.2 exDict 1 2 "view_group" (.natV 5)
     (by decide) (by decide) (by decide) (by decide) (by decide) rfl⟩

/-! ### Linkage characterization lemmas -/

theorem getUnit_link_from (g : Graph) (a b n : Nat) :
    getUnit (link_from g a b) n =
      { getUnit g n with
        links_from := if n = a then dictSet (getUnit g n).links_from b false
                      else (getUnit g n).links_from,
        links_to := if n = b then dictSet (getUnit g n).links_to a false
                    else (getUnit g n).links_to } := by
  simp only [link_from]
  by_cases ha : n = a
  · by_cases hb : n = b
    · subst ha
      subst hb
      simp [getUnit_setUnit_self]
    · subst ha
      rw [getUnit_setUnit_ne _ b n _ hb]
      simp [getUnit_setUnit_self, hb]
  · by_cases hb : n = b
    · subst hb
      rw [getUnit_setUnit_self]
      rw [getUnit_setUnit_ne _ a n _ ha]
      simp [getUnit_setUnit_ne _ a n _ ha, ha]
    · rw [getUnit_setUnit_ne _ b n _ hb, getUnit_setUnit_ne _ a n _ ha]
      simp [ha, hb]

theorem bidir_link_from (g : Graph) (a b : Nat) (hB : Bidir g) :
    Bidir (link_from g a b) := by
  intro n m
  rw [getUnit_link_from g a b n, getUnit_link_from g a b m]
  dsimp only
  by_cases hnb : n = b <;> by_cases hma : m = a
  · simp [hnb, hma, dictHasKey_dictSet]
  · simp [hnb, hma, dictHasKey_dictSet, hB b m]
  · simp [hnb, hma, dictHasKey_dictSet, hB n a]
  · simp [hnb, hma, hB n m]

theorem getUnit_unlink_from (g : Graph) (a b n : Nat) :
    getUnit (unlink_from g a b) n =
      { getUnit g n with
        links_from := if n = a ∧ dictHasKey (getUnit g a).links_from b = true
                      then dictDel (getUnit g n).links_from b
                      else (getUnit g n).links_from,
        links_to := if n = b ∧ dictHasKey (getUnit g b).links_to a = true
                    then dictDel (getUnit g n).links_to a
                    else (getUnit g n).links_to } := by
  simp only [unlink_from]
  have hlf : ∀ X, (getUnit (setUnit g b { getUnit g b with links_to := X }) a).links_from
      = (getUnit g a).links_from := by
    intro X
    by_cases hab : a = b
    · subst hab
      rw [getUnit_setUnit_self]
    · rw [getUnit_setUnit_ne _ b a _ hab]
  by_cases h1 : dictHasKey (getUnit g b).links_to a = true
  · simp only [h1, if_true, if_pos h1, hlf]
    by_cases h2 : dictHasKey (getUnit g a).links_from b = true
    · simp only [h2, if_true, if_pos h2]
      by_cases ha : n = a
      · by_cases hb : n = b
        · subst ha
          subst hb
          simp [getUnit_setUnit_self]
        · subst ha
          rw [getUnit_setUnit_self, getUnit_setUnit_ne _ b n _ hb]
          simp [hb]
      · by_cases hb : n = b
        · subst hb
          rw [getUnit_setUnit_ne _ a n _ ha, getUnit_setUnit_self]
          simp [ha]
        · rw [getUnit_setUnit_ne _ a n _ ha, getUnit_setUnit_ne _ b n _ hb]
          simp [ha, hb]
    · rw [if_neg h2]
      by_cases hb : n = b
      · rw [hb, getUnit_setUnit_self]
        simp [h1, h2]
      · rw [getUnit_setUnit_ne _ b n _ hb]
        simp [hb, h2]
  · rw [if_neg h1]
    by_cases h2 : dictHasKey (getUnit g a).links_from b = true
    · rw [if_pos h2]
      by_cases ha : n = a
      · rw [ha, getUnit_setUnit_self]
        simp [h1, h2]
      · rw [getUnit_setUnit_ne _ a n _ ha]
        simp [ha, h1]
    · rw [if_neg h2]
      simp [h1, h2]

theorem bidir_unlink_from (g : Graph) (a b : Nat) (hB : Bidir g) :
    Bidir (unlink_from g a b) := by
  intro n m
  rw [getUnit_unlink_from g a b n, getUnit_unlink_from g a b m]
  dsimp only
  by_cases hC1 : n = b ∧ dictHasKey (getUnit g b).links_to a = true <;>
    by_cases hC2 : m = a ∧ dictHasKey (getUnit g a).links_from b = true
  · rw [if_pos hC1, if_pos hC2]
    obtain ⟨hnb, h1⟩ := hC1
    obtain ⟨hma, h2⟩ := hC2
    simp [hma, hnb, dictHasKey_dictDel]
  · rw [if_pos hC1, if_neg hC2]
    obtain ⟨hnb, h1⟩ := hC1
    by_cases hma : m = a
    · have h2f : dictHasKey (getUnit g a).links_from b = false := by
        cases h : dictHasKey (getUnit g a).links_from b
        · rfl
        · exact absurd ⟨hma, h⟩ hC2
      simp [hma, hnb, dictHasKey_dictDel, h2f]
    · simp [dictHasKey_dictDel, hma, hnb, hB b m]
  · rw [if_neg hC1, if_pos hC2]
    obtain ⟨hma, h2⟩ := hC2
    by_cases hnb : n = b
    · have h1f : dictHasKey (getUnit g b).links_to a = false := by
        cases h : dictHasKey (getUnit g b).links_to a
        · rfl
        · exact absurd ⟨hnb, h⟩ hC1
      simp [hma, hnb, dictHasKey_dictDel, h1f]
    · simp [dictHasKey_dictDel, hma, hnb, hB n a]
  · rw [if_neg hC1, if_neg hC2]
    exact hB n m

theorem foldDelTo_spec (L : List Nat) (g : Graph) (x n : Nat) :
    getUnit (L.foldl (fun acc src => setUnit acc src
        { getUnit acc src with links_to := dictDel (getUnit acc src).links_to x }) g) n =
      { getUnit g n with
        links_to := if n ∈ L then dictDel (getUnit g n).links_to x
                    else (getUnit g n).links_to } := by
  induction L generalizing g with
  | nil => rfl
  | cons s L ih =>
    rw [List.foldl_cons, ih]
    by_cases hns : n = s
    · rw [hns, getUnit_setUnit_self]
      by_cases hnL : s ∈ L <;> simp [hnL, dictDel_dictDel]
    · rw [getUnit_setUnit_ne _ s n _ hns]
      by_cases hnL : n ∈ L <;> simp [hnL, hns]

theorem foldDelFrom_spec (L : List Nat) (g : Graph) (x n : Nat) :
    getUnit (L.foldl (fun acc dst => setUnit acc dst
        { getUnit acc dst with links_from := dictDel (getUnit acc dst).links_from x }) g) n =
      { getUnit g n with
        links_from := if n ∈ L then dictDel (getUnit g n).links_from x
                      else (getUnit g n).links_from } := by
  induction L generalizing g with
  | nil => rfl
  | cons s L ih =>
    rw [List.foldl_cons, ih]
    by_cases hns : n = s
    · rw [hns, getUnit_setUnit_self]
      by_cases hnL : s ∈ L <;> simp [hnL, dictDel_dictDel]
    · rw [getUnit_setUnit_ne _ s n _ hns]
      by_cases hnL : n ∈ L <;> simp [hnL, hns]

theorem hasKey_unlink_from_all (g : Graph) (self : Nat) (hB : Bidir g) (p q : Nat) :
    (dictHasKey (getUnit (unlink_from_all g self) p).links_to q = true ↔
      (¬p = self ∧ ¬q = self ∧ dictHasKey (getUnit g p).links_to q = true)) ∧
    (dictHasKey (getUnit (unlink_from_all g self) p).links_from q = true ↔
      (¬p = self ∧ ¬q = self ∧ dictHasKey (getUnit g p).links_from q = true)) := by
  simp only [unlink_from_all]
  by_cases hp : p = self
  · rw [hp, getUnit_setUnit_self]
    simp [dictHasKey, dictLookup]
  · rw [getUnit_setUnit_ne _ self p _ hp, foldDelFrom_spec, foldDelTo_spec,
      foldDelTo_spec]
    dsimp only
    constructor
    · by_cases hpK1 : p ∈ dictKeys (getUnit g self).links_from
      · rw [if_pos hpK1]
        simp [hp, dictHasKey_dictDel, and_comm]
      · rw [if_neg hpK1]
        by_cases hq : q = self
        · have hnk : dictHasKey (getUnit g p).links_to self = false := by
            cases h : dictHasKey (getUnit g p).links_to self
            · rfl
            · exact absurd ((dictHasKey_iff_mem_keys _ _).1 ((hB p self).1 h)) hpK1
          simp [hq, hp, hnk]
        · simp [hq, hp]
    · by_cases hpK2 : p ∈ dictKeys
        (if self ∈ dictKeys (getUnit g self).links_from
         then dictDel (getUnit g self).links_to self
         else (getUnit g self).links_to)
      · rw [if_pos hpK2]
        simp [hp, dictHasKey_dictDel, and_comm]
      · rw [if_neg hpK2]
        by_cases hq : q = self
        · have hnt : dictHasKey (getUnit g self).links_to p = false := by
            cases h : dictHasKey (getUnit g self).links_to p
            · rfl
            · exfalso
              apply hpK2
              by_cases hsK1 : self ∈ dictKeys (getUnit g self).links_from
              · rw [if_pos hsK1]
                exact (dictHasKey_iff_mem_keys _ _).1
                  ((dictHasKey_dictDel _ _ _).2 ⟨hp, h⟩)
              · rw [if_neg hsK1]
                exact (dictHasKey_iff_mem_keys _ _).1 h
          have hnk : dictHasKey (getUnit g p).links_from self = false := by
            cases h : dictHasKey (getUnit g p).links_from self
            · rfl
            · rw [← hB self p] at h
              rw [h] at hnt
              exact absurd hnt (by simp)
          simp [hq, hp, hnk]
        · simp [hq, hp]

theorem bidir_unlink_from_all (g : Graph) (self : Nat) (hB : Bidir g) :
    Bidir (unlink_from_all g self) := by
  intro n m
  rw [(hasKey_unlink_from_all g self hB n m).1,
    (hasKey_unlink_from_all g self hB m n).2]
  rw [hB n m]
  constructor
  · rintro ⟨h1, h2, h3⟩
    exact ⟨h2, h1, h3⟩
  · rintro ⟨h1, h2, h3⟩
    exact ⟨h2, h1, h3⟩

/-- C7: starting from freshly constructed units, the bidirectionality
invariant `B ∈ A.links_to ⇔ A ∈ B.links_from` holds after any sequence of
`link_from`, `unlink_from` and `unlink_from_all` operations; and
`unlink_from` on a non-existent edge is a no-op that leaves both maps (and
the whole heap) unchanged. -/
theorem link_bidirectionality_invariant :
    (∀ ops : List LinkOp, Bidir (applyOps freshGraph ops)) ∧
    (∀ (g : Graph) (self src : Nat),
      dictHasKey (getUnit g self).links_from src = false →
      dictHasKey (getUnit g src).links_to self = false →
      unlink_from g self src = g) := by
  constructor
  · have hfresh : Bidir freshGraph := by
      intro a b
      simp [getUnit, freshGraph, dictLookup, defaultUnit, dictHasKey]
    have hall : ∀ (ops : List LinkOp) (g : Graph), Bidir g →
        Bidir (ops.foldl applyOp g) := by
      intro ops
      induction ops with
      | nil => exact fun g hB => hB
      | cons op ops ih =>
        intro g hB
        rw [List.foldl_cons]
        refine ih _ ?_
        cases op with
        | link self src => exact bidir_link_from g self src hB
        | unlink self src => exact bidir_unlink_from g self src hB
        | unlinkAll self => exact bidir_unlink_from_all g self hB
    exact fun ops => hall ops freshGraph hfresh
  · intro g self src h1 h2
    simp [unlink_from, h1, h2]

/-- Witness for C7: unlinking an edge that was never created changes
nothing. -/
theorem link_bidirectionality_invariant_witness :
    unlink_from exGraphChain 6 5 = exGraphChain :=
  link_bidirectionality_invariant.2 exGraphChain 6 5 (by decide) (by decide)

/-! ### Gate-round lemmas -/

theorem nodup_subset_length {l₁ l₂ : List Nat} (h1 : l₁.Nodup) (hsub : l₁ ⊆ l₂) :
    l₁.length ≤ l₂.length :=
  calc l₁.length = l₁.toFinset.card := (List.toFinset_card_of_nodup h1).symm
  _ ≤ l₂.toFinset.card := Finset.card_le_card (fun x hx => by
      rw [List.mem_toFinset] at hx ⊢
      exact hsub hx)
  _ ≤ l₂.length := List.toFinset_card_le l₂

theorem dictKeys_flagged (L : List (Nat × Bool)) (P : List Nat) :
    dictKeys (flagged L P) = dictKeys L := by
  simp [dictKeys, flagged, List.map_map]

theorem flagged_congr_notmem (L : List (Nat × Bool)) (s : Nat) (P : List Nat)
    (h : s ∉ dictKeys L) :
    flagged L (s :: P) = flagged L P := by
  induction L with
  | nil => rfl
  | cons p rest ih =>
    simp only [dictKeys, List.map_cons, List.mem_cons] at h
    push_neg at h
    have hne : p.1 ≠ s := fun hh => h.1 hh.symm
    have h1 : decide (p.1 ∈ s :: P) = decide (p.1 ∈ P) := by
      simp [List.mem_cons, hne]
    have h2 := ih (by simpa [dictKeys] using h.2)
    simp only [flagged, List.map_cons] at h2 ⊢
    rw [h1, h2]

theorem dictSet_flagged (L : List (Nat × Bool)) (s : Nat) (P : List Nat)
    (hnd : (dictKeys L).Nodup) (hs : s ∈ dictKeys L) (hsP : s ∉ P) :
    dictSet (flagged L P) s true = flagged L (s :: P) := by
  induction L with
  | nil => simp [dictKeys] at hs
  | cons p rest ih =>
    simp only [dictKeys, List.map_cons, List.nodup_cons] at hnd
    by_cases hps : p.1 = s
    · have h2 : flagged rest (s :: P) = flagged rest P := by
        apply flagged_congr_notmem
        rw [← hps]
        simpa [dictKeys] using hnd.1
      show dictSet ((p.1, decide (p.1 ∈ P)) :: flagged rest P) s true
          = (p.1, decide (p.1 ∈ s :: P)) :: flagged rest (s :: P)
      simp [dictSet, hps, h2]
    · have hs' : s ∈ dictKeys rest := by
        simp only [dictKeys, List.map_cons, List.mem_cons] at hs
        rcases hs with h | h
        · exact absurd h.symm hps
        · exact h
      have h3 : decide (p.1 ∈ s :: P) = decide (p.1 ∈ P) := by
        simp [List.mem_cons, hps]
      have h4 := ih (by simpa [dictKeys] using hnd.2) hs'
      show dictSet ((p.1, decide (p.1 ∈ P)) :: flagged rest P) s true
          = (p.1, decide (p.1 ∈ s :: P)) :: flagged rest (s :: P)
      simp only [dictSet, hps, if_false, h3]
      rw [h4]

theorem flagged_reset (L : List (Nat × Bool)) (Q : List Nat) :
    (flagged L Q).map (fun p => (p.1, false)) = flagged L [] := by
  simp [flagged, List.map_map]

theorem flagged_nil_eq (L : List (Nat × Bool)) (h : ∀ p ∈ L, p.2 = false) :
    flagged L [] = L := by
  induction L with
  | nil => rfl
  | cons p rest ih =>
    obtain ⟨k, v⟩ := p
    have hv := h (k, v) (by simp)
    simp only at hv
    have hh : flagged ((k, v) :: rest) [] = (k, false) :: flagged rest [] := by
      simp [flagged]
    rw [hh, ih (fun q hq => h q (by simp [hq])), hv]

theorem flagged_values_all (L : List (Nat × Bool)) (Q : List Nat) :
    ((dictValues (flagged L Q)).all (fun b => b)) = true ↔
      ∀ k ∈ dictKeys L, k ∈ Q := by
  rw [dictValues_all_iff]
  constructor
  · intro h k hk
    rcases List.mem_map.1 hk with ⟨p, hp, hpk⟩
    have hv := h (p.1, decide (p.1 ∈ Q)) (List.mem_map.2 ⟨p, hp, rfl⟩)
    simp only [decide_eq_true_iff] at hv
    rwa [← hpk]
  · intro h q hq
    rcases List.mem_map.1 hq with ⟨p, hp, hpq⟩
    rw [← hpq]
    simp only [decide_eq_true_iff]
    exact h p.1 (List.mem_map.2 ⟨p, hp, rfl⟩)

theorem open_gate_flagged (g : Graph) (n s : Nat) (P : List Nat)
    (hne : (getUnit g n).links_from ≠ [])
    (hnd : (dictKeys (getUnit g n).links_from).Nodup)
    (hs : s ∈ dictKeys (getUnit g n).links_from) (hsP : s ∉ P) :
    open_gate (setUnit g n { getUnit g n with
        links_from := flagged (getUnit g n).links_from P }) n s =
      if ∀ k ∈ dictKeys (getUnit g n).links_from, k ∈ s :: P then
        (true, setUnit g n { getUnit g n with
          links_from := flagged (getUnit g n).links_from [] })
      else
        (false, setUnit g n { getUnit g n with
          links_from := flagged (getUnit g n).links_from (s :: P) }) := by
  have hu : getUnit (setUnit g n { getUnit g n with
      links_from := flagged (getUnit g n).links_from P }) n =
      { getUnit g n with links_from := flagged (getUnit g n).links_from P } :=
    getUnit_setUnit_self g n _
  have hie : ¬ ((flagged (getUnit g n).links_from P).isEmpty = true) := by
    cases hL : (getUnit g n).links_from with
    | nil => exact absurd hL hne
    | cons p rest => simp [flagged, hL]
  have hk : dictHasKey (flagged (getUnit g n).links_from P) s = true := by
    rw [dictHasKey_iff_mem_keys, dictKeys_flagged]
    exact hs
  have hset := dictSet_flagged (getUnit g n).links_from s P hnd hs hsP
  simp only [open_gate, hu]
  rw [if_neg hie, if_pos hk, hset, setUnit_setUnit, setUnit_setUnit]
  by_cases hall : ∀ k ∈ dictKeys (getUnit g n).links_from, k ∈ s :: P
  · rw [if_pos ((flagged_values_all _ _).2 hall), if_pos hall, flagged_reset]
  · rw [if_neg (fun h => hall ((flagged_values_all _ _).1 h)), if_neg hall]

theorem notifyAll_round (g : Graph) (n : Nat) (σ P : List Nat)
    (hnd : (dictKeys (getUnit g n).links_from).Nodup)
    (hperm : (P ++ σ).Perm (dictKeys (getUnit g n).links_from))
    (hσ : σ ≠ []) :
    notifyAll n σ (setUnit g n { getUnit g n with
        links_from := flagged (getUnit g n).links_from P }) =
      (List.replicate (σ.length - 1) false ++ [true],
       setUnit g n { getUnit g n with
         links_from := flagged (getUnit g n).links_from [] }) := by
  induction σ generalizing P with
  | nil => exact absurd rfl hσ
  | cons s rest ih =>
    have hsK : s ∈ dictKeys (getUnit g n).links_from :=
      hperm.subset (by simp)
    have hnodup2 : (P ++ s :: rest).Nodup := (hperm.nodup_iff).2 hnd
    have hsrest : (s :: (P ++ rest)).Nodup :=
      (List.perm_middle.nodup_iff).1 hnodup2
    have hsP : s ∉ P := fun h => (List.nodup_cons.1 hsrest).1 (by simp [h])
    have hneL : (getUnit g n).links_from ≠ [] := by
      intro h
      rw [h] at hsK
      simp [dictKeys] at hsK
    simp only [notifyAll]
    rw [open_gate_flagged g n s P hneL hnd hsK hsP]
    cases rest with
    | nil =>
      have hall : ∀ k ∈ dictKeys (getUnit g n).links_from, k ∈ s :: P := by
        intro k hk
        have hm := hperm.symm.subset hk
        simp at hm ⊢
        tauto
      rw [if_pos hall]
      simp [notifyAll]
    | cons t rest2 =>
      have hnotall : ¬ ∀ k ∈ dictKeys (getUnit g n).links_from, k ∈ s :: P := by
        intro hall
        have hlen := nodup_subset_length hnd (fun k hk => hall k hk)
        have h1 := hperm.length_eq
        simp [List.length_append] at h1 hlen
        omega
      rw [if_neg hnotall]
      have hperm' : ((s :: P) ++ (t :: rest2)).Perm
          (dictKeys (getUnit g n).links_from) :=
        (List.perm_middle.symm).trans hperm
      rw [ih (s :: P) hperm' (by simp)]
      simp [List.replicate_succ]

theorem notifyAll_incomplete (g : Graph) (n : Nat) (σ P : List Nat)
    (hnd : (dictKeys (getUnit g n).links_from).Nodup)
    (hnodup2 : (P ++ σ).Nodup)
    (hsub : ∀ k ∈ P ++ σ, k ∈ dictKeys (getUnit g n).links_from)
    (hlt : P.length + σ.length < (dictKeys (getUnit g n).links_from).length) :
    notifyAll n σ (setUnit g n { getUnit g n with
        links_from := flagged (getUnit g n).links_from P }) =
      (List.replicate σ.length false,
       setUnit g n { getUnit g n with
         links_from := flagged (getUnit g n).links_from (σ.reverse ++ P) }) := by
  induction σ generalizing P with
  | nil => simp [notifyAll]
  | cons s rest ih =>
    have hsK : s ∈ dictKeys (getUnit g n).links_from := hsub s (by simp)
    have hsrest : (s :: (P ++ rest)).Nodup :=
      (List.perm_middle.nodup_iff).1 hnodup2
    have hsP : s ∉ P := fun h => (List.nodup_cons.1 hsrest).1 (by simp [h])
    have hneL : (getUnit g n).links_from ≠ [] := by
      intro h
      rw [h] at hsK
      simp [dictKeys] at hsK
    simp only [notifyAll]
    rw [open_gate_flagged g n s P hneL hnd hsK hsP]
    have hnotall : ¬ ∀ k ∈ dictKeys (getUnit g n).links_from, k ∈ s :: P := by
      intro hall
      have hlen := nodup_subset_length hnd (fun k hk => hall k hk)
      simp at hlen hlt
      omega
    rw [if_neg hnotall]
    have hsub' : ∀ k ∈ (s :: P) ++ rest, k ∈ dictKeys (getUnit g n).links_from := by
      intro k hk
      apply hsub k
      simp at hk ⊢
      tauto
    have hlt' : (s :: P).length + rest.length <
        (dictKeys (getUnit g n).links_from).length := by
      simp at hlt ⊢
      omega
    rw [ih (s :: P) hsrest hsub' hlt']
    simp [List.replicate_succ, List.append_assoc]

theorem flagged_nil_setUnit_eq (g : Graph) (n : Nat)
    (hne : (getUnit g n).links_from ≠ [])
    (hflags : ∀ p ∈ (getUnit g n).links_from, p.2 = false) :
    setUnit g n { getUnit g n with
      links_from := flagged (getUnit g n).links_from [] } = g := by
  rw [flagged_nil_eq _ hflags]
  have heta : { getUnit g n with links_from := (getUnit g n).links_from }
      = getUnit g n := rfl
  rw [heta]
  apply dictSet_lookup_eq_self
  cases hl : dictLookup g n with
  | none => exact absurd (by simp [getUnit, hl, defaultUnit]) hne
  | some u => simp [getUnit, hl]

/-- C1: `open_gate` is the AND-join barrier.  (1) A node with no
predecessors is always open and the heap is untouched.  (2) Otherwise a
known notifier's arrival flag is marked; if some flag is still false the
gate reports closed keeping the marks, and if all flags are true after
marking it resets every flag and reports open.  (3) A complete round of
N distinct predecessor notifications from the all-false state, in any
order, yields exactly one `true` (the last) and returns the arrival flags
to all-false — the heap is back to its starting state.  (4) Any N−1 (or
fewer) distinct notifications from the all-false state yield only
`false`. -/
theorem open_gate_and_join_barrier :
    (∀ (g : Graph) (n s : Nat), (getUnit g n).links_from = [] →
      open_gate g n s = (true, g)) ∧
    (∀ (g : Graph) (n s : Nat), (getUnit g n).links_from ≠ [] →
      dictHasKey (getUnit g n).links_from s = true →
      ((∃ p ∈ dictSet (getUnit g n).links_from s true, p.2 = false) →
        open_gate g n s =
          (false, setUnit g n { getUnit g n with
            links_from := dictSet (getUnit g n).links_from s true })) ∧
      ((∀ p ∈ dictSet (getUnit g n).links_from s true, p.2 = true) →
        open_gate g n s =
          (true, setUnit g n { getUnit g n with
            links_from := (dictSet (getUnit g n).links_from s true).map
              (fun p => (p.1, false)) }))) ∧
    (∀ (g : Graph) (n : Nat) (σ : List Nat),
      (dictKeys (getUnit g n).links_from).Nodup →
      (∀ p ∈ (getUnit g n).links_from, p.2 = false) →
      σ.Perm (dictKeys (getUnit g n).links_from) → σ ≠ [] →
      notifyAll n σ g =
        (List.replicate (σ.length - 1) false ++ [true], g)) ∧
    (∀ (g : Graph) (n : Nat) (σ : List Nat),
      (dictKeys (getUnit g n).links_from).Nodup →
      (∀ p ∈ (getUnit g n).links_from, p.2 = false) →
      σ.Nodup → (∀ s ∈ σ, s ∈ dictKeys (getUnit g n).links_from) →
      σ.length < (getUnit g n).links_from.length →
      (notifyAll n σ g).1 = List.replicate σ.length false) := by
  have hie : ∀ (g : Graph) (n : Nat), (getUnit g n).links_from ≠ [] →
      ¬ ((getUnit g n).links_from.isEmpty = true) := by
    intro g n hne
    cases hL : (getUnit g n).links_from with
    | nil => exact absurd hL hne
    | cons p rest => simp
  refine ⟨?_, ?_, ?_, ?_⟩
  · intro g n s h
    simp [open_gate, h]
  · intro g n s hne hk
    constructor
    · intro hex
      have hv : ¬ ((dictValues (dictSet (getUnit g n).links_from s true)).all
          (fun b => b) = true) := by
        rw [dictValues_all_iff]
        intro hall
        obtain ⟨p, hp, hfalse⟩ := hex
        rw [hall p hp] at hfalse
        cases hfalse
      simp only [open_gate]
      rw [if_neg (hie g n hne), if_pos hk, if_neg hv]
    · intro hall
      have hv : ((dictValues (dictSet (getUnit g n).links_from s true)).all
          (fun b => b) = true) := (dictValues_all_iff _).2 hall
      simp only [open_gate]
      rw [if_neg (hie g n hne), if_pos hk, if_pos hv]
  · intro g n σ hnd hflags hperm hσ
    have hne : (getUnit g n).links_from ≠ [] := by
      intro h
      apply hσ
      have hkeys : dictKeys (getUnit g n).links_from = [] := by
        simp [h, dictKeys]
      rw [hkeys] at hperm
      exact List.Perm.eq_nil hperm
    have hkey := flagged_nil_setUnit_eq g n hne hflags
    conv_lhs => rw [← hkey]
    rw [notifyAll_round g n σ [] hnd hperm hσ]
    rw [hkey]
  · intro g n σ hnd hflags hnodup hsub hlt
    have hne : (getUnit g n).links_from ≠ [] := by
      intro h
      rw [h] at hlt
      simp at hlt
    have hkey := flagged_nil_setUnit_eq g n hne hflags
    conv_lhs => rw [← hkey]
    rw [notifyAll_incomplete g n σ [] hnd (by simpa using hnodup)
      (by simpa using hsub) (by simpa [dictKeys] using hlt)]

/-- Witness for C1 on the two-predecessor heap `exGraph`: a full round in
reversed order gives exactly one `true` (the last) and restores the heap;
a single notification gives only `false`; a node with no predecessors is
open immediately. -/
theorem open_gate_and_join_barrier_witness :
    notifyAll 2 [1, 0] exGraph = ([false, true], exGraph) ∧
    (notifyAll 2 [0] exGraph).1 = [false] ∧
    open_gate exGraphLocked 9 0 = (true, exGraphLocked) :=
  ⟨open_gate_and_join_barrier.2.2.1 exGraph 2 [1, 0]
      (by decide) (by decide) (by decide) (by decide),
   open_gate_and_join_barrier.2.2.2 exGraph 2 [0]
      (by decide) (by decide) (by decide) (by decide) (by decide),
   open_gate_and_join_barrier.1 exGraphLocked 9 0 (by decide)⟩

/-! ### Termination measure lemmas for the initialization traversal.
They must precede the well-founded recursive definition `initDepGo`,
whose termination proof uses them. -/

theorem uninitCount_setUnit_init_le (g : Graph) (n : Nat) (u : UnitState)
    (hu : u.is_initialized = true) :
    uninitCount (setUnit g n u) ≤ uninitCount g := by
  induction g with
  | nil => simp [setUnit, dictSet, uninitCount, hu]
  | cons p rest ih =>
    by_cases hp : p.1 = n
    · simp [setUnit, dictSet, if_pos hp, uninitCount, hu]
    · simp only [setUnit, dictSet, if_neg hp, uninitCount]
      have := ih
      simp only [setUnit] at this
      omega

theorem uninitCount_setUnit_lt (g : Graph) (n : Nat) (u w : UnitState)
    (hl : dictLookup g n = some w) (hw : w.is_initialized = false)
    (hu : u.is_initialized = true) :
    uninitCount (setUnit g n u) < uninitCount g := by
  induction g with
  | nil => simp [dictLookup] at hl
  | cons p rest ih =>
    by_cases hp : p.1 = n
    · rw [dictLookup, if_pos hp] at hl
      have hpw : p.2 = w := Option.some.inj hl
      simp [setUnit, dictSet, if_pos hp, uninitCount, hu, hpw, hw]
    · rw [dictLookup, if_neg hp] at hl
      have := ih hl
      simp only [setUnit, dictSet, if_neg hp, uninitCount] at this ⊢
      omega

theorem uninitCount_setUnit_none (g : Graph) (n : Nat) (u : UnitState)
    (hl : dictLookup g n = none) (hu : u.is_initialized = true) :
    uninitCount (setUnit g n u) = uninitCount g := by
  induction g with
  | nil => simp [setUnit, dictSet, uninitCount, hu]
  | cons p rest ih =>
    by_cases hp : p.1 = n
    · rw [dictLookup, if_pos hp] at hl
      cases hl
    · rw [dictLookup, if_neg hp] at hl
      have := ih hl
      simp only [setUnit, dictSet, if_neg hp, uninitCount] at this ⊢
      omega

theorem uninitCount_setUnit_same (g : Graph) (n : Nat) (u w : UnitState)
    (hl : dictLookup g n = some w) (heq : u.is_initialized = w.is_initialized) :
    uninitCount (setUnit g n u) = uninitCount g := by
  induction g with
  | nil => simp [dictLookup] at hl
  | cons p rest ih =>
    by_cases hp : p.1 = n
    · rw [dictLookup, if_pos hp] at hl
      have hpw : p.2 = w := Option.some.inj hl
      simp only [setUnit, dictSet, if_pos hp, uninitCount, hpw, heq]
    · rw [dictLookup, if_neg hp] at hl
      have := ih hl
      simp only [setUnit, dictSet, if_neg hp, uninitCount] at this ⊢
      omega

theorem dictLookup_of_links_from_ne (g : Graph) (n : Nat)
    (h : (getUnit g n).links_from ≠ []) :
    dictLookup g n = some (getUnit g n) := by
  cases hl : dictLookup g n with
  | none => exact absurd (by simp [getUnit, hl, defaultUnit]) h
  | some u => simp [getUnit, hl]

theorem uninitCount_open_gate (g : Graph) (n s : Nat) :
    uninitCount (open_gate g n s).2 = uninitCount g := by
  by_cases hne : (getUnit g n).links_from = []
  · simp [open_gate, hne]
  · have hl := dictLookup_of_links_from_ne g n hne
    rcases open_gate_snd_cases g n s with h | ⟨lf, h⟩
    · rw [h]
    · rw [h]
      exact uninitCount_setUnit_same g n _ _ hl rfl

theorem is_initialized_open_gate (g : Graph) (n s m : Nat) :
    (getUnit (open_gate g n s).2 m).is_initialized =
      (getUnit g m).is_initialized := by
  rw [getUnit_open_gate_eq g n s m]

/-- The visit step of `initialize_dependent` on one successor:
`dst.initialize()` (bump the instrumentation counter) followed by
`dst.is_initialized = True`. -/
def markInit (g : Graph) (dst : Nat) : Graph :=
  setUnit g dst { getUnit g dst with
    init_calls := (getUnit g dst).init_calls + 1, is_initialized := true }

/-- The body of `Unit.initialize_dependent`: process the captured
successor list `ds` of node `self`.  For each `dst`: skip it if already
initialized; check its gate with `self` as source and prune the branch if
closed; otherwise call `dst.initialize()` (bump the counter), set
`dst.is_initialized = True`, and recurse into `dst`'s own successors
before continuing with the rest of the list.  Returns the heap and the
depth-first list of nodes whose `initialize()` was called; the result is
packaged with the monotonicity of the uninitialized-node count, which the
termination argument needs. -/
def initDepGo (g : Graph) (self : Nat) (ds : List Nat) :
    { p : Graph × List Nat // uninitCount p.1 ≤ uninitCount g } :=
  match ds with
  | [] => ⟨(g, []), Nat.le_refl _⟩
  | dst :: rest =>
    if hInit : (getUnit g dst).is_initialized = true then
      let r := initDepGo g self rest
      ⟨r.val, r.property⟩
    else
      if hGate : (open_gate g dst self).1 = true then
        let g2 := markInit (open_gate g dst self).2 dst
        let r1 := initDepGo g2 dst (dictKeys (getUnit g2 dst).links_to)
        let r2 := initDepGo r1.val.1 self rest
        ⟨(r2.val.1, dst :: (r1.val.2 ++ r2.val.2)),
          Nat.le_trans r2.property (Nat.le_trans r1.property
            (Nat.le_trans (uninitCount_setUnit_init_le _ _ _ rfl)
              (Nat.le_of_eq (uninitCount_open_gate g dst self))))⟩
      else
        let r := initDepGo (open_gate g dst self).2 self rest
        ⟨r.val, Nat.le_trans r.property
          (Nat.le_of_eq (uninitCount_open_gate g dst self))⟩
termination_by (uninitCount g, ds.length)
decreasing_by
  · apply Prod.Lex.right
    simp [List.length_cons]
  · have hframe : (getUnit (open_gate g s self).2 s).is_initialized = false := by
      rw [is_initialized_open_gate g s self s]
      exact (Bool.not_eq_true _) ▸ hInit
    cases hl : dictLookup (open_gate g s self).2 s with
    | some w =>
      have hw : w.is_initialized = false := by
        have hgw : getUnit (open_gate g s self).2 s = w := by
          simp [getUnit, hl]
        rw [← hgw]
        exact hframe
      have hlt := uninitCount_setUnit_lt (open_gate g s self).2 s
        { getUnit (open_gate g s self).2 s with
          init_calls := (getUnit (open_gate g s self).2 s).init_calls + 1,
          is_initialized := true } w hl hw rfl
      rw [uninitCount_open_gate g s self] at hlt
      exact Prod.Lex.left _ _ hlt
    | none =>
      have heq := uninitCount_setUnit_none (open_gate g s self).2 s
        { getUnit (open_gate g s self).2 s with
          init_calls := (getUnit (open_gate g s self).2 s).init_calls + 1,
          is_initialized := true } hl rfl
      rw [uninitCount_open_gate g s self] at heq
      have hdef : getUnit (open_gate g s self).2 s = defaultUnit := by
        simp [getUnit, hl]
      rw [Prod.lex_def]
      refine Or.inr ⟨heq, ?_⟩
      have hK2 : dictKeys (getUnit (markInit (open_gate g s self).2 s) s).links_to
          = [] := by
        rw [markInit, getUnit_setUnit_self, hdef]
        rfl
      simp [hK2]
  · rw [Prod.lex_def]
    have hle : uninitCount r1.val.1 ≤ uninitCount g :=
      Nat.le_trans r1.property
        (Nat.le_trans (uninitCount_setUnit_init_le _ _ _ rfl)
          (Nat.le_of_eq (uninitCount_open_gate g s self)))
    rcases hle.lt_or_eq with hlt | heq
    · exact Or.inl hlt
    · exact Or.inr ⟨heq, by simp [List.length_cons]⟩
  · rw [uninitCount_open_gate g s self]
    apply Prod.Lex.right
    simp [List.length_cons]

/-- `Unit.initialize_dependent(self)`: traverse the successors of `self`
on the calling thread.  Returns the final heap and the depth-first order
in which `initialize()` was called. -/
def initialize_dependent (g : Graph) (self : Nat) : Graph × List Nat :=
  (initDepGo g self (dictKeys (getUnit g self).links_to)).val

theorem getUnit_open_gate_ne (g : Graph) (n s m : Nat) (h : m ≠ n) :
    getUnit (open_gate g n s).2 m = getUnit g m := by
  rcases open_gate_snd_cases g n s with heq | ⟨lf, heq⟩
  · rw [heq]
  · rw [heq, getUnit_setUnit_ne _ n m _ h]

theorem step_run_calls (g : Graph) (dst self n : Nat) :
    (getUnit (markInit (open_gate g dst self).2 dst) n).run_calls =
      (getUnit g n).run_calls := by
  by_cases hn : n = dst
  · subst hn
    rw [markInit, getUnit_setUnit_self]
    show (getUnit (open_gate g n self).2 n).run_calls = _
    rw [getUnit_open_gate_eq g n self n]
  · rw [markInit, getUnit_setUnit_ne _ dst n _ hn,
      getUnit_open_gate_ne g dst self n hn]

theorem step_init_calls (g : Graph) (dst self n : Nat) :
    (getUnit (markInit (open_gate g dst self).2 dst) n).init_calls =
      (getUnit g n).init_calls + (if n = dst then 1 else 0) := by
  by_cases hn : n = dst
  · subst hn
    rw [markInit, getUnit_setUnit_self, if_pos rfl]
    show (getUnit (open_gate g n self).2 n).init_calls + 1 = _
    rw [getUnit_open_gate_eq g n self n]
  · rw [markInit, getUnit_setUnit_ne _ dst n _ hn,
      getUnit_open_gate_ne g dst self n hn, if_neg hn]
    omega

theorem step_is_initialized (g : Graph) (dst self n : Nat) :
    (getUnit (markInit (open_gate g dst self).2 dst) n).is_initialized =
      ((getUnit g n).is_initialized || decide (n = dst)) := by
  by_cases hn : n = dst
  · subst hn
    rw [markInit, getUnit_setUnit_self]
    simp
  · rw [markInit, getUnit_setUnit_ne _ dst n _ hn,
      getUnit_open_gate_ne g dst self n hn]
    simp [hn]

theorem step_getUnit_ne (g : Graph) (dst self n : Nat) (hn : n ≠ dst) :
    getUnit (markInit (open_gate g dst self).2 dst) n = getUnit g n := by
  rw [markInit, getUnit_setUnit_ne _ dst n _ hn,
    getUnit_open_gate_ne g dst self n hn]

theorem initDepGo_nil (g : Graph) (self : Nat) :
    (initDepGo g self []).val = (g, []) := by
  rw [initDepGo]

theorem initDepGo_skip (g : Graph) (self dst : Nat) (rest : List Nat)
    (h : (getUnit g dst).is_initialized = true) :
    (initDepGo g self (dst :: rest)).val = (initDepGo g self rest).val := by
  rw [initDepGo]
  simp [h]

theorem initDepGo_prune (g : Graph) (self dst : Nat) (rest : List Nat)
    (h1 : (getUnit g dst).is_initialized = false)
    (h2 : (open_gate g dst self).1 = false) :
    (initDepGo g self (dst :: rest)).val =
      (initDepGo (open_gate g dst self).2 self rest).val := by
  rw [initDepGo]
  simp [h1, h2]

theorem initDepGo_visit (g : Graph) (self dst : Nat) (rest : List Nat)
    (h1 : (getUnit g dst).is_initialized = false)
    (h2 : (open_gate g dst self).1 = true) :
    (initDepGo g self (dst :: rest)).val =
      ((initDepGo (initDepGo (markInit (open_gate g dst self).2 dst) dst
          (dictKeys (getUnit (markInit (open_gate g dst self).2 dst) dst).links_to)).val.1
          self rest).val.1,
       dst :: ((initDepGo (markInit (open_gate g dst self).2 dst) dst
          (dictKeys (getUnit (markInit (open_gate g dst self).2 dst) dst).links_to)).val.2 ++
         (initDepGo (initDepGo (markInit (open_gate g dst self).2 dst) dst
            (dictKeys (getUnit (markInit (open_gate g dst self).2 dst) dst).links_to)).val.1
            self rest).val.2)) := by
  rw [initDepGo]
  simp [h1, h2]

theorem initDepGo_effects (g : Graph) (self : Nat) (ds : List Nat) :
    (∀ n, (getUnit (initDepGo g self ds).val.1 n).run_calls =
      (getUnit g n).run_calls) ∧
    (∀ n, (getUnit (initDepGo g self ds).val.1 n).is_initialized =
      ((getUnit g n).is_initialized ||
        decide (n ∈ (initDepGo g self ds).val.2))) ∧
    (∀ n ∈ (initDepGo g self ds).val.2,
      (getUnit g n).is_initialized = false) ∧
    (∀ n, (getUnit (initDepGo g self ds).val.1 n).init_calls =
      (getUnit g n).init_calls +
        (if n ∈ (initDepGo g self ds).val.2 then 1 else 0)) ∧
    (∀ n, (getUnit g n).is_initialized = true →
      getUnit (initDepGo g self ds).val.1 n = getUnit g n) := by
  induction g, self, ds using initDepGo.induct with
  | case1 g self =>
    rw [initDepGo_nil]
    simp
  | case2 g self dst rest hInit ih =>
    rw [initDepGo_skip g self dst rest hInit]
    exact ih
  | case3 g self dst rest hInit hGate g2 r1 ihA ihB ihC ihD =>
    clear ihB ihD
    have hg2 : g2 = markInit (open_gate g dst self).2 dst := rfl
    have hr1 : r1 = initDepGo g2 dst (dictKeys (getUnit g2 dst).links_to) := rfl
    have hInitF : (getUnit g dst).is_initialized = false :=
      (Bool.not_eq_true _) ▸ hInit
    rw [initDepGo_visit g self dst rest hInitF hGate, ← hg2, ← hr1]
    try rw [← hr1] at ihA
    try rw [← hr1] at ihC
    obtain ⟨a1, b1, c1, d1, e1⟩ := ihA
    obtain ⟨a2, b2, c2, d2, e2⟩ := ihC
    set r2 := initDepGo r1.val.1 self rest with hr2
    have hstepr : ∀ m, (getUnit g2 m).run_calls = (getUnit g m).run_calls := by
      intro m
      rw [hg2, step_run_calls g dst self m]
    have hstepi : ∀ m, (getUnit g2 m).is_initialized =
        ((getUnit g m).is_initialized || decide (m = dst)) := by
      intro m
      rw [hg2, step_is_initialized g dst self m]
    have hstepc : ∀ m, (getUnit g2 m).init_calls =
        (getUnit g m).init_calls + (if m = dst then 1 else 0) := by
      intro m
      rw [hg2, step_init_calls g dst self m]
    have hstepu : ∀ m, m ≠ dst → getUnit g2 m = getUnit g m := by
      intro m hm
      rw [hg2]
      exact step_getUnit_ne g dst self m hm
    have hdst_init_g2 : (getUnit g2 dst).is_initialized = true := by
      rw [hstepi dst]
      simp
    have hdst_init_r1 : (getUnit r1.val.1 dst).is_initialized = true := by
      rw [b1 dst, hdst_init_g2]
      simp
    have hnev1 : dst ∉ r1.val.2 := by
      intro h
      rw [c1 dst h] at hdst_init_g2
      cases hdst_init_g2
    have hnev2 : dst ∉ r2.val.2 := by
      intro h
      rw [c2 dst h] at hdst_init_r1
      cases hdst_init_r1
    have hev1ev2 : ∀ m, m ∈ r1.val.2 → m ∉ r2.val.2 := by
      intro m h1 h2
      have hinit : (getUnit r1.val.1 m).is_initialized = true := by
        rw [b1 m]
        simp [h1]
      rw [c2 m h2] at hinit
      cases hinit
    refine ⟨?_, ?_, ?_, ?_, ?_⟩
    · intro n
      rw [a2 n, a1 n, hstepr n]
    · intro n
      rw [b2 n, b1 n, hstepi n]
      by_cases h1 : n = dst <;> by_cases h2 : n ∈ r1.val.2 <;>
        by_cases h3 : n ∈ r2.val.2 <;>
        simp [h1, h2, h3, List.mem_cons, List.mem_append]
    · intro n hn
      rcases List.mem_cons.1 hn with h | h
      · rw [h]
        exact hInitF
      · rcases List.mem_append.1 h with h | h
        · have hc := c1 n h
          rw [hstepi n] at hc
          simp at hc
          exact hc.1
        · have hc := c2 n h
          rw [b1 n, hstepi n] at hc
          simp at hc
          exact hc.1.1
    · intro n
      rw [d2 n, d1 n, hstepc n]
      by_cases h1 : n = dst
      · subst h1
        simp [hnev1, hnev2, List.mem_cons]
      · by_cases h2 : n ∈ r1.val.2
        · simp [h1, h2, hev1ev2 n h2, List.mem_cons, List.mem_append]
        · by_cases h3 : n ∈ r2.val.2
          · simp [h1, h2, h3, List.mem_cons, List.mem_append]
          · simp [h1, h2, h3, List.mem_cons, List.mem_append]
    · intro n hn
      have hne : n ≠ dst := by
        intro h
        rw [h, hInitF] at hn
        cases hn
      have hstep : getUnit g2 n = getUnit g n := hstepu n hne
      have hg2init : (getUnit g2 n).is_initialized = true := by
        rw [hstep]
        exact hn
      have h1 := e1 n hg2init
      have hr1init : (getUnit r1.val.1 n).is_initialized = true := by
        rw [h1]
        exact hg2init
      have h2 := e2 n hr1init
      rw [h2, h1, hstep]
  | case4 g self dst rest hInit hGate ih =>
    have hInitF : (getUnit g dst).is_initialized = false :=
      (Bool.not_eq_true _) ▸ hInit
    have hGateF : (open_gate g dst self).1 = false :=
      (Bool.not_eq_true _) ▸ hGate
    rw [initDepGo_prune g self dst rest hInitF hGateF]
    obtain ⟨a, b, c, d, e⟩ := ih
    have hrc : ∀ n, (getUnit (open_gate g dst self).2 n).run_calls =
        (getUnit g n).run_calls := by
      intro n
      rw [getUnit_open_gate_eq g dst self n]
    have hic : ∀ n, (getUnit (open_gate g dst self).2 n).init_calls =
        (getUnit g n).init_calls := by
      intro n
      rw [getUnit_open_gate_eq g dst self n]
    refine ⟨?_, ?_, ?_, ?_, ?_⟩
    · intro n
      rw [a n, hrc n]
    · intro n
      rw [b n, is_initialized_open_gate g dst self n]
    · intro n hn
      rw [← is_initialized_open_gate g dst self n]
      exact c n hn
    · intro n
      rw [d n, hic n]
    · intro n hn
      have hne : n ≠ dst := by
        intro h
        rw [h, hInitF] at hn
        cases hn
      rw [e n (by rw [is_initialized_open_gate g dst self n]; exact hn),
        getUnit_open_gate_ne g dst self n hne]

/-- C9: `initialize_dependent` is a synchronous depth-first traversal of
successors, no worker pool involved: an already-initialized successor is
skipped outright (that entry changes nothing and its branch is not
entered); an uninitialized successor whose gate — checked with the
current node as source — stays closed prunes that branch (only the gate's
own arrival marking persists); an open gate means the successor's
`initialize()` is called, its `is_initialized` flag is set true, and the
traversal recurses into that successor's own successors before the
remaining siblings.  Globally: no `run()` body executes anywhere,
already-initialized units come out untouched and never re-initialized,
and every visited node was uninitialized before, is initialized after,
and received exactly one `initialize()` call. -/
theorem initialize_dependent_traversal :
    (∀ (g : Graph) (self dst : Nat) (rest : List Nat),
      (getUnit g dst).is_initialized = true →
      (initDepGo g self (dst :: rest)).val = (initDepGo g self rest).val) ∧
    (∀ (g : Graph) (self dst : Nat) (rest : List Nat),
      (getUnit g dst).is_initialized = false →
      (open_gate g dst self).1 = false →
      (initDepGo g self (dst :: rest)).val =
        (initDepGo (open_gate g dst self).2 self rest).val) ∧
    (∀ (g : Graph) (self dst : Nat) (rest : List Nat),
      (getUnit g dst).is_initialized = false →
      (open_gate g dst self).1 = true →
      (initDepGo g self (dst :: rest)).val =
        ((initDepGo (initDepGo (markInit (open_gate g dst self).2 dst) dst
            (dictKeys (getUnit (markInit (open_gate g dst self).2 dst) dst).links_to)).val.1
            self rest).val.1,
         dst :: ((initDepGo (markInit (open_gate g dst self).2 dst) dst
            (dictKeys (getUnit (markInit (open_gate g dst self).2 dst) dst).links_to)).val.2 ++
           (initDepGo (initDepGo (markInit (open_gate g dst self).2 dst) dst
              (dictKeys (getUnit (markInit (open_gate g dst self).2 dst) dst).links_to)).val.1
              self rest).val.2))) ∧
    (∀ (g : Graph) (self : Nat),
      initialize_dependent g self =
        (initDepGo g self (dictKeys (getUnit g self).links_to)).val) ∧
    (∀ (g : Graph) (self n : Nat),
      (getUnit (initialize_dependent g self).1 n).run_calls =
        (getUnit g n).run_calls) ∧
    (∀ (g : Graph) (self n : Nat), (getUnit g n).is_initialized = true →
      getUnit (initialize_dependent g self).1 n = getUnit g n ∧
        n ∉ (initialize_dependent g self).2) ∧
    (∀ (g : Graph) (self n : Nat), n ∈ (initialize_dependent g self).2 →
      (getUnit g n).is_initialized = false ∧
      (getUnit (initialize_dependent g self).1 n).is_initialized = true ∧
      (getUnit (initialize_dependent g self).1 n).init_calls =
        (getUnit g n).init_calls + 1) := by
  refine ⟨initDepGo_skip, initDepGo_prune, initDepGo_visit,
    fun g self => rfl, ?_, ?_, ?_⟩
  · intro g self n
    exact (initDepGo_effects g self (dictKeys (getUnit g self).links_to)).1 n
  · intro g self n hn
    have he := initDepGo_effects g self (dictKeys (getUnit g self).links_to)
    refine ⟨he.2.2.2.2 n hn, fun hmem => ?_⟩
    have hf := he.2.2.1 n hmem
    rw [hn] at hf
    cases hf
  · intro g self n hn
    have he := initDepGo_effects g self (dictKeys (getUnit g self).links_to)
    refine ⟨he.2.2.1 n hn, ?_, ?_⟩
    · have hb := he.2.1 n
      simp only [initialize_dependent]
      rw [hb]
      simp only [initialize_dependent] at hn
      simp [hn]
    · have hd := he.2.2.2.1 n
      simp only [initialize_dependent]
      rw [hd]
      simp only [initialize_dependent] at hn
      rw [if_pos hn]

/-- Witness for C9: an initialized successor is skipped; a closed gate
prunes; an uninitialized successor with an open gate is visited and its
`initialize()` runs exactly once; `run()` counters never move; an
initialized unit survives the traversal untouched. -/
theorem initialize_dependent_traversal_witness :
    ((initDepGo exGraphInit 9 [8]).val = (initDepGo exGraphInit 9 []).val) ∧
    ((initDepGo exGraph 0 [2]).val = (initDepGo (open_gate exGraph 2 0).2 0 []).val) ∧
    ((getUnit (initialize_dependent exGraphChain 6).1 7).run_calls =
      (getUnit exGraphChain 7).run_calls) ∧
    (getUnit (initialize_dependent exGraphInit 9).1 8 = getUnit exGraphInit 8) ∧
    ((getUnit (initialize_dependent exGraphChain 6).1 7).init_calls =
      (getUnit exGraphChain 7).init_calls + 1) := by
  have hmem : 7 ∈ (initialize_dependent exGraphChain 6).2 := by
    have hvisit := initialize_dependent_traversal.2.2.1 exGraphChain 6 7 []
      (by decide) (by decide)
    show 7 ∈ (initDepGo exGraphChain 6 [7]).val.2
    rw [hvisit]
    simp
  exact ⟨initialize_dependent_traversal.1 exGraphInit 9 8 [] (by decide),
    initialize_dependent_traversal.2.1 exGraph 0 2 [] (by decide) (by decide),
    initialize_dependent_traversal.2.2.2.2.1 exGraphChain 6 7,
    (initialize_dependent_traversal.2.2.2.2.2.1 exGraphInit 9 8 (by decide)).1,
    (initialize_dependent_traversal.2.2.2.2.2.2 exGraphChain 6 7 hmem).2.2⟩

end Veles
